import Mathlib

/-
Verification of the charge_toy particle simulation (src/main.rs).

The program state is a list of particles, each carrying a mass, a signed
charge, a 2-D velocity and a 2-D position (f32 in the source; modelled here
over the reals).  One simulation step (`particle_sim`) iterates over the
indices x = 0 .. n-1; for each x it applies the Coulomb-style force exerted
by particle x onto every other particle and then immediately advances
particle x by its velocity.
-/

namespace ChargeToy

noncomputable section

/-- A charged point mass, mirroring `struct Particle` of the source. -/
structure Particle where
  mass : ℝ
  charge : ℝ
  velocity : ℝ × ℝ
  position : ℝ × ℝ

/-- Euclidean magnitude of a 2-vector, mirroring `fn magnitude`. -/
def magnitude (value : ℝ × ℝ) : ℝ :=
  Real.sqrt (value.1 * value.1 + value.2 * value.2)

/-- Direction of a 2-vector, mirroring `fn normalize`. -/
def normalize (value : ℝ × ℝ) : ℝ × ℝ :=
  (value.1 / magnitude value, value.2 / magnitude value)

/-- Componentwise difference, mirroring `fn subtract`. -/
def subtract (a b : ℝ × ℝ) : ℝ × ℝ :=
  (a.1 - b.1, a.2 - b.2)

/-- Componentwise sum, mirroring `fn add`. -/
def add (a b : ℝ × ℝ) : ℝ × ℝ :=
  (a.1 + b.1, a.2 + b.2)

/-- Scaling of a 2-vector, mirroring `fn scalar_mul`. -/
def scalar_mul (a : ℝ × ℝ) (b : ℝ) : ℝ × ℝ :=
  (a.1 * b, a.2 * b)

/-- `Particle::simulate_motion_step`: `self.position += self.velocity`. -/
def simulate_motion_step (p : Particle) : Particle :=
  { p with position := add p.position p.velocity }

/-- `Particle::simulate_force`: add to `self.velocity` the impulse exerted by
`other` on `self`, computed from the current positions of both particles. -/
def simulate_force (p other : Particle) : Particle :=
  let line_segment := subtract p.position other.position
  let r := magnitude line_segment
  let cpd := (p.charge * other.charge) / (r * r)
  let unit_direction := normalize line_segment
  let f := scalar_mul unit_direction (cpd / p.mass)
  { p with velocity := add p.velocity f }

/-- The inner loop of `particle_sim`: apply `simulate_force` from `cur`
(the clone of `particles[x]`) to every particle except the one at index `x`,
i.e. to the indices `(0..x).chain(x+1..len)`.  The updates of distinct
indices are independent, so the list is rebuilt in index order. -/
def forcePass (cur : Particle) : ℕ → List Particle → List Particle
  | _, [] => []
  | 0, p :: ps => p :: ps.map (fun q => simulate_force q cur)
  | n + 1, p :: ps => simulate_force p cur :: forcePass cur n ps

/-- One iteration of the outer loop of `particle_sim` at index `x`:
clone `particles[x]`, apply its force to all other particles, then advance
`particles[x]` by its velocity. -/
def simStep (ps : List Particle) (x : ℕ) : List Particle :=
  if hx : x < ps.length then
    let cur := ps.get ⟨x, hx⟩
    (forcePass cur x ps).set x (simulate_motion_step cur)
  else ps

/-- `fn particle_sim`: run `simStep` for every index `x` in `0..len`. -/
def particle_sim (ps : List Particle) : List Particle :=
  (List.range ps.length).foldl simStep ps

/-- The color assigned to a particle in the render snapshot built in `main`:
`if particle.charge > 0.0 { [1.0, 0.2, 0.2] } else { [0.2, 0.4, 1.0] }`. -/
def vertex_color (charge : ℝ) : ℝ × ℝ × ℝ :=
  if charge > 0 then (1.0, 0.2, 0.2) else (0.2, 0.4, 1.0)

/-- The outbound snapshot built after each advance in `main`: one
(position, color) pair per particle, in index order. -/
def display_points (ps : List Particle) : List ((ℝ × ℝ) × (ℝ × ℝ × ℝ)) :=
  ps.map (fun p => (p.position, vertex_color p.charge))

/-- Modelled from the spec (section 4.2, staged variant): the velocity delta
contributed by the pair (p, q) on particle p, `u * (c / mass(p))` with
`d = position(p) - position(q)`, `r = |d|`, `c = charge(p)*charge(q)/r^2`,
`u = d / r`. -/
def forceDelta (p q : Particle) : ℝ × ℝ :=
  let d := subtract p.position q.position
  let r := magnitude d
  scalar_mul (normalize d) ((p.charge * q.charge) / (r * r) / p.mass)

/-- Modelled from the spec: the sum of the velocity deltas exerted on `p`
(which sits at index `i`) by the particles of the list, all read at their
pre-step positions; `j` is the index of the head of the remaining list. -/
def deltaSum (p : Particle) (i : ℕ) : ℕ → List Particle → ℝ × ℝ
  | _, [] => (0, 0)
  | j, q :: qs => add (if j = i then (0, 0) else forceDelta p q) (deltaSum p i (j + 1) qs)

/-- Modelled from the spec: accumulate, for every particle, all pairwise
deltas computed from the pre-step positions `ps`; `i` is the index of the
head of the remaining list. -/
def stagedVelocities (ps : List Particle) : ℕ → List Particle → List Particle
  | _, [] => []
  | i, p :: rest =>
      { p with velocity := add p.velocity (deltaSum p i 0 ps) } ::
        stagedVelocities ps (i + 1) rest

/-- Modelled from the spec: the staged advance in which no position is
updated until all pairwise forces for all particles have been accumulated
into velocities, after which every position advances by its velocity. -/
def advance_staged (ps : List Particle) : List Particle :=
  (stagedVelocities ps 0 ps).map (fun p => { p with position := add p.position p.velocity })

/-- Separation distance of the first two particles of the state. -/
def pairSep : List Particle → ℝ
  | p0 :: p1 :: _ => magnitude (subtract p1.position p0.position)
  | _ => 0

/-- `Particle::simulate_force` with the source's numeric error path made
explicit.  The source divides by `r * r` and (inside `normalize`) by `r`
without any guard; in the f32 source a zero `r` makes these `0/0`, whose
IEEE-754 value is NaN — not a real number, and not the `0` that real-valued
division junk would give.  This mirror returns `none` exactly when that
zero-divisor path is taken, and the real-valued result otherwise. -/
def simulate_force_checked (p other : Particle) : Option Particle :=
  if magnitude (subtract p.position other.position) = 0 then none
  else some (simulate_force p other)

/-- Checked mirror of the `map` branch of `forcePass`. -/
def map_force_checked (cur : Particle) : List Particle → Option (List Particle)
  | [] => some []
  | q :: qs =>
      (simulate_force_checked q cur).bind fun q' =>
        (map_force_checked cur qs).map fun qs' => q' :: qs'

/-- Checked mirror of `forcePass`. -/
def forcePass_checked (cur : Particle) : ℕ → List Particle → Option (List Particle)
  | _, [] => some []
  | 0, p :: ps => (map_force_checked cur ps).map fun ps' => p :: ps'
  | n + 1, p :: ps =>
      (simulate_force_checked p cur).bind fun p' =>
        (forcePass_checked cur n ps).map fun ps' => p' :: ps'

/-- Checked mirror of `simStep`. -/
def simStep_checked (ps : List Particle) (x : ℕ) : Option (List Particle) :=
  if hx : x < ps.length then
    (forcePass_checked (ps.get ⟨x, hx⟩) x ps).map fun ps' =>
      ps'.set x (simulate_motion_step (ps.get ⟨x, hx⟩))
  else some ps

/-- Checked mirror of `particle_sim`: `none` as soon as any pairwise force
computation of the run divides by a zero magnitude. -/
def particle_sim_checked (ps : List Particle) : Option (List Particle) :=
  (List.range ps.length).foldl (fun acc x => acc.bind fun l => simStep_checked l x) (some ps)

end

/- ### Basic vector lemmas -/

theorem magnitude_nonneg (v : ℝ × ℝ) : 0 ≤ magnitude v :=
  Real.sqrt_nonneg _

theorem magnitude_pos {v : ℝ × ℝ} (hv : v ≠ (0, 0)) : 0 < magnitude v := by
  apply Real.sqrt_pos.mpr
  have hv' : v.1 ≠ 0 ∨ v.2 ≠ 0 := by
    by_contra hcon
    push_neg at hcon
    exact hv (Prod.ext hcon.1 hcon.2)
  rcases hv' with h1 | h2
  · have := mul_self_pos.mpr h1
    nlinarith [mul_self_nonneg v.2]
  · have := mul_self_pos.mpr h2
    nlinarith [mul_self_nonneg v.1]

theorem magnitude_smul (v : ℝ × ℝ) (t : ℝ) :
    magnitude (scalar_mul v t) = |t| * magnitude v := by
  unfold magnitude scalar_mul
  have h : (v.1 * t) * (v.1 * t) + (v.2 * t) * (v.2 * t)
      = t ^ 2 * (v.1 * v.1 + v.2 * v.2) := by ring
  rw [h, Real.sqrt_mul (sq_nonneg t), Real.sqrt_sq_eq_abs]

theorem magnitude_axis (t : ℝ) : magnitude (t, 0) = |t| := by
  unfold magnitude
  simpa using Real.sqrt_mul_self_eq_abs t

/- ### Field-preservation facts about the two particle mutators -/

theorem simulate_force_mass (p q : Particle) : (simulate_force p q).mass = p.mass := rfl

theorem simulate_force_charge (p q : Particle) : (simulate_force p q).charge = p.charge := rfl

theorem simulate_force_position (p q : Particle) :
    (simulate_force p q).position = p.position := rfl

theorem simulate_motion_step_mass (p : Particle) :
    (simulate_motion_step p).mass = p.mass := rfl

theorem simulate_motion_step_charge (p : Particle) :
    (simulate_motion_step p).charge = p.charge := rfl

theorem simulate_motion_step_velocity (p : Particle) :
    (simulate_motion_step p).velocity = p.velocity := rfl

/- ### Structural lemmas about the simulation loop -/

theorem forcePass_length (cur : Particle) :
    ∀ (x : ℕ) (ps : List Particle), (forcePass cur x ps).length = ps.length := by
  intro x ps
  induction ps generalizing x with
  | nil => cases x <;> simp [forcePass]
  | cons p rest ih =>
      cases x with
      | zero => simp [forcePass]
      | succ n => simp [forcePass, ih n]

theorem forcePass_getElem? (cur : Particle) :
    ∀ (x y : ℕ) (ps : List Particle),
      (forcePass cur x ps)[y]?
        = (ps[y]?).map (fun p => if y = x then p else simulate_force p cur) := by
  intro x y ps
  induction ps generalizing x y with
  | nil => cases x <;> simp [forcePass]
  | cons p rest ih =>
      cases x with
      | zero =>
          cases y with
          | zero => simp [forcePass]
          | succ m => simp [forcePass, List.getElem?_map]
      | succ n =>
          cases y with
          | zero => simp [forcePass]
          | succ m => simpa [forcePass, Nat.succ_eq_add_one] using ih n m

theorem simStep_eq (ps : List Particle) (x : ℕ) (hx : x < ps.length) :
    simStep ps x
      = (forcePass (ps.get ⟨x, hx⟩) x ps).set x (simulate_motion_step (ps.get ⟨x, hx⟩)) := by
  simp [simStep, hx]

theorem simStep_eq_of_ge (ps : List Particle) (x : ℕ) (hx : ps.length ≤ x) :
    simStep ps x = ps := by
  simp [simStep, Nat.not_lt.mpr hx]

theorem simStep_length (ps : List Particle) (x : ℕ) :
    (simStep ps x).length = ps.length := by
  rcases Nat.lt_or_ge x ps.length with hx | hx
  · rw [simStep_eq ps x hx, List.length_set, forcePass_length]
  · rw [simStep_eq_of_ge ps x hx]

theorem simStep_mass_charge (ps : List Particle) (x y : ℕ) :
    ((simStep ps x)[y]?).map (fun p => (p.mass, p.charge))
      = (ps[y]?).map (fun p => (p.mass, p.charge)) := by
  rcases Nat.lt_or_ge x ps.length with hx | hx
  · rw [simStep_eq ps x hx]
    rcases Decidable.em (y = x) with hyx | hyx
    · subst hyx
      rw [List.getElem?_set_self (by rw [forcePass_length]; exact hx)]
      rw [List.getElem?_eq_getElem hx]
      simp [simulate_motion_step_mass, simulate_motion_step_charge, List.get_eq_getElem]
    · rw [List.getElem?_set_ne (fun h => hyx h.symm), forcePass_getElem?]
      rcases hy : ps[y]? with _ | p
      · simp
      · simp only [Option.map_some', Option.map_map]
        rcases Decidable.em (y = x) with h | h
        · exact absurd h hyx
        · simp [h, simulate_force_mass, simulate_force_charge]
  · rw [simStep_eq_of_ge ps x hx]

theorem simStep_position_other (ps : List Particle) (x y : ℕ) (hyx : y ≠ x) :
    ((simStep ps x)[y]?).map Particle.position = (ps[y]?).map Particle.position := by
  rcases Nat.lt_or_ge x ps.length with hx | hx
  · rw [simStep_eq ps x hx]
    rw [List.getElem?_set_ne (fun h => hyx h.symm), forcePass_getElem?]
    rcases hy : ps[y]? with _ | p
    · simp
    · simp [hyx, simulate_force_position]
  · rw [simStep_eq_of_ge ps x hx]

theorem simStep_position_self (ps : List Particle) (x : ℕ) (hx : x < ps.length) :
    (simStep ps x)[x]? = some (simulate_motion_step (ps.get ⟨x, hx⟩)) := by
  rw [simStep_eq ps x hx]
  exact List.getElem?_set_self (by rw [forcePass_length]; exact hx)

theorem foldl_simStep_length (l : List ℕ) :
    ∀ ps : List Particle, (l.foldl simStep ps).length = ps.length := by
  induction l with
  | nil => intro ps; rfl
  | cons z l ih => intro ps; rw [List.foldl_cons, ih, simStep_length]

theorem foldl_simStep_mass_charge (l : List ℕ) :
    ∀ (ps : List Particle) (y : ℕ),
      ((l.foldl simStep ps)[y]?).map (fun p => (p.mass, p.charge))
        = (ps[y]?).map (fun p => (p.mass, p.charge)) := by
  induction l with
  | nil => intro ps y; rfl
  | cons z l ih =>
      intro ps y
      rw [List.foldl_cons, ih, simStep_mass_charge]

theorem foldl_simStep_position (l : List ℕ) :
    ∀ (ps : List Particle) (y : ℕ), (∀ z ∈ l, z ≠ y) →
      ((l.foldl simStep ps)[y]?).map Particle.position
        = (ps[y]?).map Particle.position := by
  induction l with
  | nil => intro ps y _; rfl
  | cons z l ih =>
      intro ps y hl
      rw [List.foldl_cons, ih _ _ (fun w hw => hl w (List.mem_cons_of_mem z hw)),
        simStep_position_other _ _ _ (Ne.symm (hl z (List.mem_cons_self z l)))]

theorem particle_sim_length (ps : List Particle) :
    (particle_sim ps).length = ps.length :=
  foldl_simStep_length _ ps

/- ### Closed forms of the advance on zero, one and two particles -/

theorem particle_sim_nil : particle_sim [] = [] := rfl

theorem particle_sim_single (p : Particle) :
    particle_sim [p] = [simulate_motion_step p] := by
  simp [particle_sim, simStep, forcePass, List.range_succ]

theorem particle_sim_pair (p0 p1 : Particle) :
    particle_sim [p0, p1]
      = [simulate_force (simulate_motion_step p0) (simulate_force p1 p0),
         simulate_motion_step (simulate_force p1 p0)] := by
  simp [particle_sim, simStep, forcePass, List.range_succ, List.set]

/- ### Evaluating one force application along a fixed direction -/

/-- Abbreviation for proofs: `p` with the impulse `w` added to its velocity. -/
noncomputable def kick (p : Particle) (w : ℝ × ℝ) : Particle :=
  { p with velocity := add p.velocity w }

theorem simulate_force_eq_kick (p other : Particle) :
    simulate_force p other
      = kick p (scalar_mul (normalize (subtract p.position other.position))
          ((p.charge * other.charge)
            / (magnitude (subtract p.position other.position)
                * magnitude (subtract p.position other.position)) / p.mass)) := rfl

theorem simulate_force_along (p other : Particle) (D : ℝ × ℝ) (s : ℝ)
    (hD : D ≠ (0, 0)) (hs : 0 < s) (hm : p.mass ≠ 0)
    (hd : subtract p.position other.position = scalar_mul D s) :
    simulate_force p other
      = kick p (scalar_mul D ((p.charge * other.charge) / (p.mass * s ^ 2 * magnitude D ^ 3))) := by
  have hr0 : 0 < magnitude D := magnitude_pos hD
  have hmag : magnitude (scalar_mul D s) = s * magnitude D := by
    rw [magnitude_smul, abs_of_pos hs]
  have hnorm : normalize (scalar_mul D s) = scalar_mul D (1 / magnitude D) := by
    unfold normalize
    rw [hmag]
    refine Prod.ext ?_ ?_ <;> (simp only [scalar_mul]; field_simp; ring)
  rw [simulate_force_eq_kick, hd, hmag, hnorm]
  refine congrArg (kick p) (Prod.ext ?_ ?_) <;> (simp only [scalar_mul]; field_simp; exact Or.inl (by ring))

theorem simulate_force_along_neg (p other : Particle) (D : ℝ × ℝ) (s : ℝ)
    (hD : D ≠ (0, 0)) (hs : s < 0) (hm : p.mass ≠ 0)
    (hd : subtract p.position other.position = scalar_mul D s) :
    simulate_force p other
      = kick p (scalar_mul D (-((p.charge * other.charge) / (p.mass * s ^ 2 * magnitude D ^ 3)))) := by
  have hr0 : 0 < magnitude D := magnitude_pos hD
  have hs' : s ≠ 0 := ne_of_lt hs
  have hmag : magnitude (scalar_mul D s) = -s * magnitude D := by
    rw [magnitude_smul, abs_of_neg hs]
  have hnorm : normalize (scalar_mul D s) = scalar_mul D (-(1 / magnitude D)) := by
    unfold normalize
    rw [hmag]
    refine Prod.ext ?_ ?_ <;> (simp only [scalar_mul]; field_simp; ring)
  rw [simulate_force_eq_kick, hd, hmag, hnorm]
  refine congrArg (kick p) (Prod.ext ?_ ?_) <;> (simp only [scalar_mul]; field_simp; exact Or.inl (by ring))

theorem subtract_ne_zero {a b : ℝ × ℝ} (hab : a ≠ b) : subtract a b ≠ (0, 0) := by
  intro h
  have h1 : a.1 - b.1 = 0 := congrArg Prod.fst h
  have h2 : a.2 - b.2 = 0 := congrArg Prod.snd h
  exact hab (Prod.ext (by linarith) (by linarith))

/-- C1: each pairwise force application during an advance — a call of
`Particle::simulate_force` — adds to the receiving particle's velocity the
delta `u * (c / mass)` with `d` the displacement from the receiver to the
source, `r = |d|`, `c = charge * charge / r^2`, `u = d / r`; a positive
charge product yields a delta along `d` (repulsion) and a negative charge
product a delta along `-d` (attraction). -/
theorem force_delta_formula_and_sign (p other : Particle)
    (hm : 0 < p.mass) (hne : p.position ≠ other.position) :
    (simulate_force p other).velocity
        = add p.velocity (scalar_mul (normalize (subtract p.position other.position)) (p.charge * other.charge / (magnitude (subtract p.position other.position) * magnitude (subtract p.position other.position)) / p.mass))
    ∧ (0 < p.charge * other.charge → ∃ t : ℝ, 0 < t ∧ subtract (simulate_force p other).velocity p.velocity = scalar_mul (subtract p.position other.position) t)
    ∧ (p.charge * other.charge < 0 → ∃ t : ℝ, t < 0 ∧ subtract (simulate_force p other).velocity p.velocity = scalar_mul (subtract p.position other.position) t) := by
  have hd0 : subtract p.position other.position ≠ (0, 0) := subtract_ne_zero hne
  have hr : 0 < magnitude (subtract p.position other.position) := magnitude_pos hd0
  have hdelta : subtract (simulate_force p other).velocity p.velocity
      = scalar_mul (normalize (subtract p.position other.position)) (p.charge * other.charge / (magnitude (subtract p.position other.position) * magnitude (subtract p.position other.position)) / p.mass) := by
    simp only [simulate_force]
    refine Prod.ext ?_ ?_ <;> (simp only [add, subtract]; ring)
  have hsc : ∀ k : ℝ, scalar_mul (normalize (subtract p.position other.position)) k
      = scalar_mul (subtract p.position other.position) (k / magnitude (subtract p.position other.position)) := by
    intro k
    refine Prod.ext ?_ ?_ <;> (simp only [scalar_mul, normalize]; ring)
  refine ⟨rfl, ?_, ?_⟩
  · intro hq
    refine ⟨p.charge * other.charge / (magnitude (subtract p.position other.position) * magnitude (subtract p.position other.position)) / p.mass / magnitude (subtract p.position other.position), ?_, ?_⟩
    · exact div_pos (div_pos (div_pos hq (mul_pos hr hr)) hm) hr
    · rw [hdelta, hsc]
  · intro hq
    refine ⟨p.charge * other.charge / (magnitude (subtract p.position other.position) * magnitude (subtract p.position other.position)) / p.mass / magnitude (subtract p.position other.position), ?_, ?_⟩
    · exact div_neg_of_neg_of_pos (div_neg_of_neg_of_pos (div_neg_of_neg_of_pos hq (mul_pos hr hr)) hm) hr
    · rw [hdelta, hsc]

/-- Witness for C1 at a concrete input: two unit-mass particles with
charges 2 and 3 at positions (3, 0) and (1, 0). -/
theorem force_delta_formula_and_sign_witness :
    (0 : ℝ) < (Particle.mk 1 2 (5, 7) (3, 0)).mass
    ∧ (Particle.mk (1 : ℝ) 2 (5, 7) (3, 0)).position ≠ (Particle.mk (1 : ℝ) 3 (0, 0) (1, 0)).position
    ∧ ((simulate_force (Particle.mk 1 2 (5, 7) (3, 0)) (Particle.mk 1 3 (0, 0) (1, 0))).velocity
        = add (Particle.mk (1 : ℝ) 2 (5, 7) (3, 0)).velocity (scalar_mul (normalize (subtract ((3 : ℝ), (0 : ℝ)) ((1 : ℝ), (0 : ℝ)))) ((2 : ℝ) * 3 / (magnitude (subtract ((3 : ℝ), (0 : ℝ)) ((1 : ℝ), (0 : ℝ))) * magnitude (subtract ((3 : ℝ), (0 : ℝ)) ((1 : ℝ), (0 : ℝ)))) / 1))
      ∧ ((0 : ℝ) < 2 * 3 → ∃ t : ℝ, 0 < t ∧ subtract (simulate_force (Particle.mk 1 2 (5, 7) (3, 0)) (Particle.mk 1 3 (0, 0) (1, 0))).velocity ((5 : ℝ), (7 : ℝ)) = scalar_mul (subtract ((3 : ℝ), (0 : ℝ)) ((1 : ℝ), (0 : ℝ))) t)
      ∧ ((2 : ℝ) * 3 < 0 → ∃ t : ℝ, t < 0 ∧ subtract (simulate_force (Particle.mk 1 2 (5, 7) (3, 0)) (Particle.mk 1 3 (0, 0) (1, 0))).velocity ((5 : ℝ), (7 : ℝ)) = scalar_mul (subtract ((3 : ℝ), (0 : ℝ)) ((1 : ℝ), (0 : ℝ))) t)) :=
  ⟨by norm_num,
   by simp [Prod.ext_iff],
   force_delta_formula_and_sign (Particle.mk 1 2 (5, 7) (3, 0)) (Particle.mk 1 3 (0, 0) (1, 0))
     (by norm_num) (by simp [Prod.ext_iff])⟩

/-- C2 (amended): during one advance, the particle acting as the force
source at iteration x still holds its pre-step position — the prefix of
iterations 0..x-1 never moves particle x (it only updates its velocity). -/
theorem force_source_position_prestep (ps : List Particle) (x : ℕ) :
    (((List.range x).foldl simStep ps)[x]?).map Particle.position
      = (ps[x]?).map Particle.position :=
  foldl_simStep_position _ ps x (fun _ hz => Nat.ne_of_lt (List.mem_range.mp hz))

/-- C4: any number of advance calls leaves every particle's mass and charge
unchanged; `particle_sim` mutates only velocities and positions. -/
theorem advance_preserves_mass_charge (ps : List Particle) (k : ℕ) :
    ((particle_sim)^[k] ps).map (fun p => (p.mass, p.charge))
      = ps.map (fun p => (p.mass, p.charge)) := by
  induction k generalizing ps with
  | zero => rfl
  | succ n ih =>
      rw [Function.iterate_succ_apply, ih (particle_sim ps)]
      apply List.ext_getElem?
      intro i
      rw [List.getElem?_map, List.getElem?_map]
      exact foldl_simStep_mass_charge _ ps i

/-- C10: within one advance, particle 0 is moved using the velocity it had
at entry: its final position is its entry position plus its entry velocity,
all forces it receives during the call landing only in its velocity. -/
theorem first_particle_motion_uses_entry_velocity (ps : List Particle) :
    ((particle_sim ps)[0]?).map Particle.position
      = (ps[0]?).map (fun p => add p.position p.velocity) := by
  cases ps with
  | nil => rfl
  | cons p rest =>
      show (((List.range (p :: rest).length).foldl simStep (p :: rest))[0]?).map _ = _
      rw [List.length_cons, List.range_succ_eq_map, List.foldl_cons]
      rw [foldl_simStep_position (List.map Nat.succ (List.range rest.length))
        (simStep (p :: rest) 0) 0
        (fun z hz => by
          rcases List.mem_map.mp hz with ⟨w, _, rfl⟩
          exact Nat.succ_ne_zero w)]
      rw [simStep_position_self (p :: rest) 0 (by simp)]
      simp [simulate_motion_step]

/-- C9: in the render snapshot the classification test is strictly
`charge > 0.0`, so a particle with charge exactly 0 receives the same
display color as a negatively charged particle, not the positive color. -/
theorem zero_charge_rendered_as_negative :
    vertex_color 0 = (0.2, 0.4, 1.0)
    ∧ (∀ c : ℝ, c < 0 → vertex_color c = (0.2, 0.4, 1.0))
    ∧ (∀ c : ℝ, 0 < c → vertex_color c = (1.0, 0.2, 0.2)) := by
  refine ⟨?_, ?_, ?_⟩
  · simp [vertex_color]
  · intro c hc
    simp [vertex_color, not_lt.mpr hc.le]
  · intro c hc
    simp [vertex_color, hc]

/-- Witness for C9: the zero-charge color rule applied at charges -1 and 1. -/
theorem zero_charge_rendered_as_negative_witness :
    ((-1 : ℝ) < 0 ∧ vertex_color (-1) = (0.2, 0.4, 1.0))
    ∧ ((0 : ℝ) < 1 ∧ vertex_color 1 = (1.0, 0.2, 0.2)) :=
  ⟨⟨by norm_num, zero_charge_rendered_as_negative.2.1 (-1) (by norm_num)⟩,
   ⟨by norm_num, zero_charge_rendered_as_negative.2.2 1 (by norm_num)⟩⟩

/- ### Zero charge and zero velocity make every mutator a no-op -/

theorem simulate_force_zero_charge (p cur : Particle) (hc : cur.charge = 0) :
    simulate_force p cur = p := by
  simp [simulate_force, hc, scalar_mul, add]

theorem simulate_motion_zero_velocity (p : Particle) (hv : p.velocity = (0, 0)) :
    simulate_motion_step p = p := by
  have hpos : add p.position p.velocity = p.position := by
    rw [hv]
    exact Prod.ext (by simp [add]) (by simp [add])
  simp [simulate_motion_step, hpos]

theorem map_simulate_force_zero (cur : Particle) (hc : cur.charge = 0) :
    ∀ ps : List Particle, ps.map (fun q => simulate_force q cur) = ps := by
  intro ps
  induction ps with
  | nil => rfl
  | cons q qs ih => simp [simulate_force_zero_charge q cur hc, ih]

theorem forcePass_zero_charge (cur : Particle) (hc : cur.charge = 0) :
    ∀ (x : ℕ) (ps : List Particle), forcePass cur x ps = ps := by
  intro x ps
  induction ps generalizing x with
  | nil => cases x <;> rfl
  | cons p rest ih =>
      cases x with
      | zero => simp [forcePass, map_simulate_force_zero cur hc]
      | succ n => simp [forcePass, simulate_force_zero_charge p cur hc, ih n]

theorem set_get_self {α : Type} (l : List α) (n : ℕ) (hn : n < l.length) :
    l.set n (l.get ⟨n, hn⟩) = l := by
  apply List.ext_getElem?
  intro i
  rw [List.getElem?_set]
  rcases Decidable.em (n = i) with h | h
  · subst h
    simp [hn, List.getElem?_eq_getElem hn, List.get_eq_getElem]
  · simp [h]

theorem simStep_zero (ps : List Particle) (x : ℕ)
    (h : ∀ p ∈ ps, p.charge = 0 ∧ p.velocity = (0, 0)) : simStep ps x = ps := by
  rcases Nat.lt_or_ge x ps.length with hx | hx
  · rw [simStep_eq ps x hx]
    have hcur := h (ps.get ⟨x, hx⟩) (List.get_mem ps x hx)
    rw [forcePass_zero_charge _ hcur.1, simulate_motion_zero_velocity _ hcur.2]
    exact set_get_self ps x hx
  · exact simStep_eq_of_ge ps x hx

theorem foldl_simStep_zero (l : List ℕ) (ps : List Particle)
    (h : ∀ p ∈ ps, p.charge = 0 ∧ p.velocity = (0, 0)) : l.foldl simStep ps = ps := by
  induction l with
  | nil => rfl
  | cons z rest ih => rw [List.foldl_cons, simStep_zero ps z h, ih]

/- The checked mirror refines the real-valued advance: whenever it
succeeds, the result is exactly `particle_sim`, so `none` isolates precisely
the runs whose force computations hit a zero divisor. -/

theorem map_force_checked_agrees (cur : Particle) :
    ∀ (qs l : List Particle), map_force_checked cur qs = some l
      → l = qs.map (fun q => simulate_force q cur) := by
  intro qs
  induction qs with
  | nil =>
      intro l h
      simp only [map_force_checked, Option.some.injEq] at h
      simp [← h]
  | cons q qs ih =>
      intro l h
      simp only [map_force_checked, Option.bind_eq_some, Option.map_eq_some'] at h
      obtain ⟨q', hq, l', hrec, rfl⟩ := h
      have hq' : q' = simulate_force q cur := by
        simp only [simulate_force_checked] at hq
        split_ifs at hq with h0
        exact ((Option.some.injEq _ _).mp hq).symm
      rw [hq', ih l' hrec]
      simp

theorem forcePass_checked_agrees (cur : Particle) :
    ∀ (x : ℕ) (ps l : List Particle), forcePass_checked cur x ps = some l
      → l = forcePass cur x ps := by
  intro x ps
  induction ps generalizing x with
  | nil =>
      intro l h
      cases x <;>
        (simp only [forcePass_checked, Option.some.injEq] at h
         simp [forcePass, ← h])
  | cons p rest ih =>
      intro l h
      cases x with
      | zero =>
          simp only [forcePass_checked, Option.map_eq_some'] at h
          obtain ⟨ps', hps, rfl⟩ := h
          rw [map_force_checked_agrees cur rest ps' hps]
          rfl
      | succ n =>
          simp only [forcePass_checked, Option.bind_eq_some, Option.map_eq_some'] at h
          obtain ⟨p', hp, ps', hps, rfl⟩ := h
          have hp' : p' = simulate_force p cur := by
            simp only [simulate_force_checked] at hp
            split_ifs at hp with h0
            exact ((Option.some.injEq _ _).mp hp).symm
          rw [hp', ih n ps' hps]
          rfl

theorem simStep_checked_agrees (ps : List Particle) (x : ℕ) (l : List Particle)
    (h : simStep_checked ps x = some l) : l = simStep ps x := by
  rcases Nat.lt_or_ge x ps.length with hx | hx
  · simp only [simStep_checked, dif_pos hx, Option.map_eq_some'] at h
    obtain ⟨ps', hps, rfl⟩ := h
    rw [forcePass_checked_agrees _ _ _ _ hps, simStep_eq ps x hx]
  · simp only [simStep_checked, dif_neg (Nat.not_lt.mpr hx), Option.some.injEq] at h
    rw [← h, simStep_eq_of_ge ps x hx]

theorem foldl_checked_none (idx : List ℕ) :
    idx.foldl (fun acc x => acc.bind fun l => simStep_checked l x) none = none := by
  induction idx with
  | nil => rfl
  | cons z rest ih => simpa [List.foldl_cons] using ih

theorem foldl_checked_agrees :
    ∀ (idx : List ℕ) (ps l : List Particle),
      idx.foldl (fun acc x => acc.bind fun l' => simStep_checked l' x) (some ps) = some l
        → l = idx.foldl simStep ps := by
  intro idx
  induction idx with
  | nil =>
      intro ps l h
      simp only [List.foldl_nil, Option.some.injEq] at h
      simp [← h]
  | cons z rest ih =>
      intro ps l h
      rw [List.foldl_cons, Option.some_bind] at h
      rcases hz : simStep_checked ps z with _ | ps'
      · rw [hz, foldl_checked_none] at h
        exact absurd h (by simp)
      · rw [hz] at h
        rw [List.foldl_cons, ← simStep_checked_agrees ps z ps' hz]
        exact ih ps' l h

theorem particle_sim_checked_agrees (ps l : List Particle)
    (h : particle_sim_checked ps = some l) : l = particle_sim ps :=
  foldl_checked_agrees (List.range ps.length) ps l h

/-- C5 counterexample: two exactly coincident zero-charge, zero-velocity
particles.  The very first pairwise force computation of the advance divides
by a zero magnitude (`0/0` throughout `cpd` and `normalize` in the f32
source, which yields NaN velocities, not zero ones), so the run takes the
error path instead of returning the collection unchanged: the checked
advance aborts. -/
theorem coincident_zero_charge_not_noop :
    (Particle.mk (1 : ℝ) 0 (0, 0) (0, 0)).charge = 0
    ∧ (Particle.mk (1 : ℝ) 0 (0, 0) (0, 0)).velocity = (0, 0)
    ∧ particle_sim_checked [Particle.mk (1 : ℝ) 0 (0, 0) (0, 0), Particle.mk (1 : ℝ) 0 (0, 0) (0, 0)] = none := by
  refine ⟨rfl, rfl, ?_⟩
  have h0 : magnitude (subtract (0 : ℝ × ℝ) 0) = 0 := by
    rw [show subtract (0 : ℝ × ℝ) 0 = ((0 : ℝ), (0 : ℝ)) from by
      refine Prod.ext ?_ ?_ <;> simp [subtract]]
    rw [magnitude_axis]
    norm_num
  simp [particle_sim_checked, simStep_checked, forcePass_checked, map_force_checked,
    simulate_force_checked, h0, List.range_succ]

/-- C5 (amended): if every particle has zero charge and zero velocity and
the positions are pairwise distinct — so that no force computation of the
run divides by a zero separation and the real-valued model is faithful to
the f32 source — any number of advance calls leaves the whole collection,
velocities and positions, unchanged. -/
theorem advance_zero_charge_distinct_noop (ps : List Particle)
    (_hdist : ∀ (i j : ℕ) (hi : i < ps.length) (hj : j < ps.length),
      i ≠ j → (ps.get ⟨i, hi⟩).position ≠ (ps.get ⟨j, hj⟩).position)
    (h : ∀ p ∈ ps, p.charge = 0 ∧ p.velocity = (0, 0)) (k : ℕ) :
    (particle_sim)^[k] ps = ps := by
  induction k with
  | zero => rfl
  | succ n ih =>
      rw [Function.iterate_succ_apply, show particle_sim ps = ps from foldl_simStep_zero _ ps h, ih]

/-- Witness for C5 (amended): two chargeless, motionless particles at
distinct positions survive three advance calls untouched. -/
theorem advance_zero_charge_distinct_noop_witness :
    (∀ (i j : ℕ) (hi : i < ([Particle.mk (1 : ℝ) 0 (0, 0) (0, 0), Particle.mk (2 : ℝ) 0 (0, 0) (1, 1)]).length) (hj : j < ([Particle.mk (1 : ℝ) 0 (0, 0) (0, 0), Particle.mk (2 : ℝ) 0 (0, 0) (1, 1)]).length),
        i ≠ j → (([Particle.mk (1 : ℝ) 0 (0, 0) (0, 0), Particle.mk (2 : ℝ) 0 (0, 0) (1, 1)]).get ⟨i, hi⟩).position ≠ (([Particle.mk (1 : ℝ) 0 (0, 0) (0, 0), Particle.mk (2 : ℝ) 0 (0, 0) (1, 1)]).get ⟨j, hj⟩).position)
    ∧ (∀ p ∈ [Particle.mk (1 : ℝ) 0 (0, 0) (0, 0), Particle.mk (2 : ℝ) 0 (0, 0) (1, 1)],
        p.charge = 0 ∧ p.velocity = (0, 0))
    ∧ (particle_sim)^[3] [Particle.mk (1 : ℝ) 0 (0, 0) (0, 0), Particle.mk (2 : ℝ) 0 (0, 0) (1, 1)]
        = [Particle.mk (1 : ℝ) 0 (0, 0) (0, 0), Particle.mk (2 : ℝ) 0 (0, 0) (1, 1)] :=
  ⟨fun i j hi hj hij => by
      have hi2 : i < 2 := by simpa using hi
      have hj2 : j < 2 := by simpa using hj
      interval_cases i <;> interval_cases j <;>
        first
          | exact absurd rfl hij
          | norm_num [List.get, Prod.ext_iff],
   fun p hp => by
      rcases List.mem_cons.mp hp with rfl | hp'
      · exact ⟨rfl, rfl⟩
      · rcases List.mem_cons.mp hp' with rfl | h'
        · exact ⟨rfl, rfl⟩
        · exact absurd h' (List.not_mem_nil p),
   advance_zero_charge_distinct_noop _
     (fun i j hi hj hij => by
        have hi2 : i < 2 := by simpa using hi
        have hj2 : j < 2 := by simpa using hj
        interval_cases i <;> interval_cases j <;>
          first
            | exact absurd rfl hij
            | norm_num [List.get, Prod.ext_iff])
     (fun p hp => by
        rcases List.mem_cons.mp hp with rfl | hp'
        · exact ⟨rfl, rfl⟩
        · rcases List.mem_cons.mp hp' with rfl | h'
          · exact ⟨rfl, rfl⟩
          · exact absurd h' (List.not_mem_nil p)) 3⟩

/- ### The advance on zero- and one-particle collections -/

/-- C3 (amended): advance on the empty collection is the identity; on a
single particle it leaves the velocity unchanged and moves the position by
exactly that velocity (so both fields are unchanged precisely when the
velocity is the zero vector). -/
theorem advance_small_collections :
    particle_sim ([] : List Particle) = []
    ∧ ∀ p : Particle, particle_sim [p] = [{ p with position := add p.position p.velocity }] :=
  ⟨rfl, fun p => particle_sim_single p⟩

/-- C3 counterexample: a single particle with velocity (1, 0) changes its
position under one advance, refuting the claim that one advance leaves the
position of every length-one collection unchanged. -/
theorem advance_singleton_moves :
    particle_sim [Particle.mk (1 : ℝ) 0 (1, 0) (0, 0)] ≠ [Particle.mk (1 : ℝ) 0 (1, 0) (0, 0)] := by
  intro h
  rw [particle_sim_single] at h
  have h2 := ((List.cons.injEq _ _ _ _).mp h).1
  have h3 := congrArg Particle.position h2
  norm_num [simulate_motion_step, add, Prod.ext_iff] at h3

/- ### Concrete evaluation helpers -/

theorem magnitude_unit_x : magnitude ((1 : ℝ), (0 : ℝ)) = 1 := by
  rw [magnitude_axis]
  norm_num

theorem unit_x_ne_zero : ((1 : ℝ), (0 : ℝ)) ≠ ((0 : ℝ), (0 : ℝ)) := by
  simp [Prod.ext_iff]

theorem simulate_force_eq_kick_delta (p q : Particle) :
    simulate_force p q = kick p (forceDelta p q) := rfl

theorem kick_inj (p : Particle) {w w' : ℝ × ℝ} (h : kick p w = kick p w') : w = w' := by
  have hv := congrArg Particle.velocity h
  simp only [kick] at hv
  have h1 := congrArg Prod.fst hv
  have h2 := congrArg Prod.snd hv
  simp only [add] at h1 h2
  refine Prod.ext (by linarith) (by linarith)

theorem forceDelta_along (p q : Particle) (D : ℝ × ℝ) (s : ℝ)
    (hD : D ≠ (0, 0)) (hs : 0 < s) (hm : p.mass ≠ 0)
    (hd : subtract p.position q.position = scalar_mul D s) :
    forceDelta p q = scalar_mul D ((p.charge * q.charge) / (p.mass * s ^ 2 * magnitude D ^ 3)) := by
  have h1 := simulate_force_along p q D s hD hs hm hd
  rw [simulate_force_eq_kick_delta] at h1
  exact kick_inj p h1

theorem forceDelta_along_neg (p q : Particle) (D : ℝ × ℝ) (s : ℝ)
    (hD : D ≠ (0, 0)) (hs : s < 0) (hm : p.mass ≠ 0)
    (hd : subtract p.position q.position = scalar_mul D s) :
    forceDelta p q
      = scalar_mul D (-((p.charge * q.charge) / (p.mass * s ^ 2 * magnitude D ^ 3))) := by
  have h1 := simulate_force_along_neg p q D s hD hs hm hd
  rw [simulate_force_eq_kick_delta] at h1
  exact kick_inj p h1

/- ### C8: the concrete two-particle attraction scenario -/

/-- C8: for unit masses, charges (+1, -1), positions (-1,0) and (1,0) and
zero velocities, one advance sees separation 2, interaction coefficient
-1/4, and yields velocity (1/4, 0) on particle 0 (toward particle 1) and
velocity (-1/4, 0) on particle 1 (the opposite direction); particle 0 has
not moved, particle 1 has moved to (3/4, 0).  Every intermediate value is a
small dyadic rational, exactly representable in IEEE-754 binary32. -/
theorem concrete_attraction_scenario :
    magnitude (subtract (Particle.mk (1 : ℝ) 1 (0, 0) (-1, 0)).position (Particle.mk (1 : ℝ) (-1) (0, 0) (1, 0)).position) = 2
    ∧ (Particle.mk (1 : ℝ) 1 (0, 0) (-1, 0)).charge * (Particle.mk (1 : ℝ) (-1) (0, 0) (1, 0)).charge / (2 * 2) = -(1 / 4)
    ∧ particle_sim [Particle.mk (1 : ℝ) 1 (0, 0) (-1, 0), Particle.mk (1 : ℝ) (-1) (0, 0) (1, 0)]
        = [Particle.mk (1 : ℝ) 1 (1 / 4, 0) (-1, 0), Particle.mk (1 : ℝ) (-1) (-(1 / 4), 0) (3 / 4, 0)] := by
  refine ⟨?_, by norm_num, ?_⟩
  · have h1 : subtract ((-1 : ℝ), (0 : ℝ)) ((1 : ℝ), (0 : ℝ)) = ((-2 : ℝ), (0 : ℝ)) := by
      refine Prod.ext ?_ ?_ <;> norm_num [subtract]
    show magnitude (subtract ((-1 : ℝ), (0 : ℝ)) ((1 : ℝ), (0 : ℝ))) = 2
    rw [h1, magnitude_axis]
    norm_num
  · have e1 : simulate_force (Particle.mk (1 : ℝ) (-1) (0, 0) (1, 0)) (Particle.mk (1 : ℝ) 1 (0, 0) (-1, 0))
        = Particle.mk (1 : ℝ) (-1) (-(1 / 4), 0) (1, 0) := by
      rw [simulate_force_along _ _ ((1 : ℝ), (0 : ℝ)) 2 unit_x_ne_zero (by norm_num) (by norm_num)
        (by refine Prod.ext ?_ ?_ <;> norm_num [subtract, scalar_mul])]
      norm_num [kick, add, scalar_mul, magnitude_unit_x, Prod.ext_iff]
    have e2 : simulate_motion_step (Particle.mk (1 : ℝ) 1 (0, 0) (-1, 0))
        = Particle.mk (1 : ℝ) 1 (0, 0) (-1, 0) :=
      simulate_motion_zero_velocity _ rfl
    have e3 : simulate_force (Particle.mk (1 : ℝ) 1 (0, 0) (-1, 0)) (Particle.mk (1 : ℝ) (-1) (-(1 / 4), 0) (1, 0))
        = Particle.mk (1 : ℝ) 1 (1 / 4, 0) (-1, 0) := by
      rw [simulate_force_along_neg _ _ ((1 : ℝ), (0 : ℝ)) (-2) unit_x_ne_zero (by norm_num) (by norm_num)
        (by refine Prod.ext ?_ ?_ <;> norm_num [subtract, scalar_mul])]
      norm_num [kick, add, scalar_mul, magnitude_unit_x, Prod.ext_iff]
    have e4 : simulate_motion_step (Particle.mk (1 : ℝ) (-1) (-(1 / 4), 0) (1, 0))
        = Particle.mk (1 : ℝ) (-1) (-(1 / 4), 0) (3 / 4, 0) := by
      simp only [simulate_motion_step, add]
      norm_num [Prod.ext_iff]
    rw [particle_sim_pair, e1, e2, e3, e4]

/- ### C2: the in-place advance differs from the staged advance -/

/-- C2 counterexample: with particle 0 carrying velocity (1,0), the in-place
advance computes the force on particle 0 from its already-moved position, so
the result differs from the staged semantics in which every force uses
pre-step positions: the in-place run gives particle 0 the velocity (3/4, 0),
the staged one (8/9, 0). -/
theorem advance_differs_from_staged :
    particle_sim [Particle.mk (1 : ℝ) 1 (1, 0) (0, 0), Particle.mk (1 : ℝ) 1 (0, 0) (3, 0)]
      ≠ advance_staged [Particle.mk (1 : ℝ) 1 (1, 0) (0, 0), Particle.mk (1 : ℝ) 1 (0, 0) (3, 0)] := by
  have e1 : simulate_force (Particle.mk (1 : ℝ) 1 (0, 0) (3, 0)) (Particle.mk (1 : ℝ) 1 (1, 0) (0, 0))
      = Particle.mk (1 : ℝ) 1 (1 / 9, 0) (3, 0) := by
    rw [simulate_force_along _ _ ((1 : ℝ), (0 : ℝ)) 3 unit_x_ne_zero (by norm_num) (by norm_num)
      (by refine Prod.ext ?_ ?_ <;> norm_num [subtract, scalar_mul])]
    norm_num [kick, add, scalar_mul, magnitude_unit_x, Prod.ext_iff]
  have e2 : simulate_motion_step (Particle.mk (1 : ℝ) 1 (1, 0) (0, 0))
      = Particle.mk (1 : ℝ) 1 (1, 0) (1, 0) := by
    simp only [simulate_motion_step, add]
    norm_num [Prod.ext_iff]
  have e3 : simulate_force (Particle.mk (1 : ℝ) 1 (1, 0) (1, 0)) (Particle.mk (1 : ℝ) 1 (1 / 9, 0) (3, 0))
      = Particle.mk (1 : ℝ) 1 (3 / 4, 0) (1, 0) := by
    rw [simulate_force_along_neg _ _ ((1 : ℝ), (0 : ℝ)) (-2) unit_x_ne_zero (by norm_num) (by norm_num)
      (by refine Prod.ext ?_ ?_ <;> norm_num [subtract, scalar_mul])]
    norm_num [kick, add, scalar_mul, magnitude_unit_x, Prod.ext_iff]
  have e4 : simulate_motion_step (Particle.mk (1 : ℝ) 1 (1 / 9, 0) (3, 0))
      = Particle.mk (1 : ℝ) 1 (1 / 9, 0) (28 / 9, 0) := by
    simp only [simulate_motion_step, add]
    norm_num [Prod.ext_iff]
  have hL : particle_sim [Particle.mk (1 : ℝ) 1 (1, 0) (0, 0), Particle.mk (1 : ℝ) 1 (0, 0) (3, 0)]
      = [Particle.mk (1 : ℝ) 1 (3 / 4, 0) (1, 0), Particle.mk (1 : ℝ) 1 (1 / 9, 0) (28 / 9, 0)] := by
    rw [particle_sim_pair, e1, e2, e3, e4]
  have hfd1 : forceDelta (Particle.mk (1 : ℝ) 1 (1, 0) (0, 0)) (Particle.mk (1 : ℝ) 1 (0, 0) (3, 0))
      = (-(1 / 9), 0) := by
    rw [forceDelta_along_neg _ _ ((1 : ℝ), (0 : ℝ)) (-3) unit_x_ne_zero (by norm_num) (by norm_num)
      (by refine Prod.ext ?_ ?_ <;> norm_num [subtract, scalar_mul])]
    norm_num [scalar_mul, magnitude_unit_x, Prod.ext_iff]
  have hfd2 : forceDelta (Particle.mk (1 : ℝ) 1 (0, 0) (3, 0)) (Particle.mk (1 : ℝ) 1 (1, 0) (0, 0))
      = (1 / 9, 0) := by
    rw [forceDelta_along _ _ ((1 : ℝ), (0 : ℝ)) 3 unit_x_ne_zero (by norm_num) (by norm_num)
      (by refine Prod.ext ?_ ?_ <;> norm_num [subtract, scalar_mul])]
    norm_num [scalar_mul, magnitude_unit_x, Prod.ext_iff]
  have hR : advance_staged [Particle.mk (1 : ℝ) 1 (1, 0) (0, 0), Particle.mk (1 : ℝ) 1 (0, 0) (3, 0)]
      = [Particle.mk (1 : ℝ) 1 (8 / 9, 0) (8 / 9, 0), Particle.mk (1 : ℝ) 1 (1 / 9, 0) (28 / 9, 0)] := by
    simp only [advance_staged, stagedVelocities, deltaSum, hfd1, hfd2, List.map]
    norm_num [add, Prod.ext_iff]
  rw [hL, hR]
  intro h
  have h2 := ((List.cons.injEq _ _ _ _).mp h).1
  have hv := congrArg Particle.velocity h2
  norm_num [Prod.ext_iff] at hv

/- ### C6: separation under like charges can decrease with nonzero velocities -/

/-- C6 counterexample: a two-particle system with like charges (product 1 > 0)
but nonzero initial velocities whose separation strictly decreases across one
advance (from 4 to 31/16) while both separations are finite and nonzero. -/
theorem like_charges_separation_can_decrease :
    (0 : ℝ) < (Particle.mk (1 : ℝ) 1 (3, 0) (0, 0)).charge * (Particle.mk (1 : ℝ) 1 (-3, 0) (4, 0)).charge
    ∧ pairSep [Particle.mk (1 : ℝ) 1 (3, 0) (0, 0), Particle.mk (1 : ℝ) 1 (-3, 0) (4, 0)] ≠ 0
    ∧ pairSep (particle_sim [Particle.mk (1 : ℝ) 1 (3, 0) (0, 0), Particle.mk (1 : ℝ) 1 (-3, 0) (4, 0)]) ≠ 0
    ∧ pairSep (particle_sim [Particle.mk (1 : ℝ) 1 (3, 0) (0, 0), Particle.mk (1 : ℝ) 1 (-3, 0) (4, 0)])
        < pairSep [Particle.mk (1 : ℝ) 1 (3, 0) (0, 0), Particle.mk (1 : ℝ) 1 (-3, 0) (4, 0)] := by
  have e1 : simulate_force (Particle.mk (1 : ℝ) 1 (-3, 0) (4, 0)) (Particle.mk (1 : ℝ) 1 (3, 0) (0, 0))
      = Particle.mk (1 : ℝ) 1 (-(47 / 16), 0) (4, 0) := by
    rw [simulate_force_along _ _ ((1 : ℝ), (0 : ℝ)) 4 unit_x_ne_zero (by norm_num) (by norm_num)
      (by refine Prod.ext ?_ ?_ <;> norm_num [subtract, scalar_mul])]
    norm_num [kick, add, scalar_mul, magnitude_unit_x, Prod.ext_iff]
  have e2 : simulate_motion_step (Particle.mk (1 : ℝ) 1 (3, 0) (0, 0))
      = Particle.mk (1 : ℝ) 1 (3, 0) (3, 0) := by
    simp only [simulate_motion_step, add]
    norm_num [Prod.ext_iff]
  have e3 : simulate_force (Particle.mk (1 : ℝ) 1 (3, 0) (3, 0)) (Particle.mk (1 : ℝ) 1 (-(47 / 16), 0) (4, 0))
      = Particle.mk (1 : ℝ) 1 (2, 0) (3, 0) := by
    rw [simulate_force_along_neg _ _ ((1 : ℝ), (0 : ℝ)) (-1) unit_x_ne_zero (by norm_num) (by norm_num)
      (by refine Prod.ext ?_ ?_ <;> norm_num [subtract, scalar_mul])]
    norm_num [kick, add, scalar_mul, magnitude_unit_x, Prod.ext_iff]
  have e4 : simulate_motion_step (Particle.mk (1 : ℝ) 1 (-(47 / 16), 0) (4, 0))
      = Particle.mk (1 : ℝ) 1 (-(47 / 16), 0) (17 / 16, 0) := by
    simp only [simulate_motion_step, add]
    norm_num [Prod.ext_iff]
  have hL : particle_sim [Particle.mk (1 : ℝ) 1 (3, 0) (0, 0), Particle.mk (1 : ℝ) 1 (-3, 0) (4, 0)]
      = [Particle.mk (1 : ℝ) 1 (2, 0) (3, 0), Particle.mk (1 : ℝ) 1 (-(47 / 16), 0) (17 / 16, 0)] := by
    rw [particle_sim_pair, e1, e2, e3, e4]
  have hsep0 : pairSep [Particle.mk (1 : ℝ) 1 (3, 0) (0, 0), Particle.mk (1 : ℝ) 1 (-3, 0) (4, 0)] = 4 := by
    show magnitude (subtract ((4 : ℝ), (0 : ℝ)) ((0 : ℝ), (0 : ℝ))) = 4
    rw [show subtract ((4 : ℝ), (0 : ℝ)) ((0 : ℝ), (0 : ℝ)) = ((4 : ℝ), (0 : ℝ)) from by
      refine Prod.ext ?_ ?_ <;> norm_num [subtract]]
    rw [magnitude_axis]
    norm_num
  have hsep1 : pairSep (particle_sim [Particle.mk (1 : ℝ) 1 (3, 0) (0, 0), Particle.mk (1 : ℝ) 1 (-3, 0) (4, 0)]) = 31 / 16 := by
    rw [hL]
    show magnitude (subtract ((17 / 16 : ℝ), (0 : ℝ)) ((3 : ℝ), (0 : ℝ))) = 31 / 16
    rw [show subtract ((17 / 16 : ℝ), (0 : ℝ)) ((3 : ℝ), (0 : ℝ)) = ((-(31 / 16) : ℝ), (0 : ℝ)) from by
      refine Prod.ext ?_ ?_ <;> norm_num [subtract]]
    rw [magnitude_axis]
    norm_num
  rw [hsep0, hsep1]
  norm_num

/- ### The two-body system launched from rest stays on the line through the
initial positions; one advance updates the four line coordinates as below. -/

theorem pair_step_shape (m0 m1 q0 q1 : ℝ) (a b D : ℝ × ℝ) (α β γ δ : ℝ)
    (hm0 : 0 < m0) (hm1 : 0 < m1)
    (hD : D ≠ (0, 0)) (hDdef : D = subtract b a)
    (hα : 0 ≤ α) (hβ : 0 ≤ β) (hγ : 0 ≤ γ) (_hδ : 0 ≤ δ) :
    particle_sim [Particle.mk m0 q0 (scalar_mul D (-γ)) (subtract a (scalar_mul D α)), Particle.mk m1 q1 (scalar_mul D δ) (add b (scalar_mul D β))]
      = [Particle.mk m0 q0 (scalar_mul D (-(γ + q0 * q1 / (m0 * (1 + α + γ + β) ^ 2 * magnitude D ^ 3)))) (subtract a (scalar_mul D (α + γ))), Particle.mk m1 q1 (scalar_mul D (δ + q0 * q1 / (m1 * (1 + α + β) ^ 2 * magnitude D ^ 3))) (add b (scalar_mul D (β + δ + q0 * q1 / (m1 * (1 + α + β) ^ 2 * magnitude D ^ 3))))] := by
  subst hDdef
  have hσ1 : (0 : ℝ) < 1 + α + β := by linarith
  have hσ2 : -(1 + α + γ + β) < (0 : ℝ) := by linarith
  have hd1 : subtract (add b (scalar_mul (subtract b a) β)) (subtract a (scalar_mul (subtract b a) α))
      = scalar_mul (subtract b a) (1 + α + β) := by
    refine Prod.ext ?_ ?_ <;> (simp only [subtract, add, scalar_mul]; ring)
  have e1 : simulate_force (Particle.mk m1 q1 (scalar_mul (subtract b a) δ) (add b (scalar_mul (subtract b a) β))) (Particle.mk m0 q0 (scalar_mul (subtract b a) (-γ)) (subtract a (scalar_mul (subtract b a) α)))
      = Particle.mk m1 q1 (scalar_mul (subtract b a) (δ + q0 * q1 / (m1 * (1 + α + β) ^ 2 * magnitude (subtract b a) ^ 3))) (add b (scalar_mul (subtract b a) β)) := by
    rw [simulate_force_along _ _ (subtract b a) (1 + α + β) hD hσ1 (ne_of_gt hm1) hd1]
    simp only [kick]
    rw [Particle.mk.injEq]
    refine ⟨rfl, rfl, ?_, rfl⟩
    refine Prod.ext ?_ ?_ <;> (simp only [subtract, add, scalar_mul]; ring)
  have e2 : simulate_motion_step (Particle.mk m0 q0 (scalar_mul (subtract b a) (-γ)) (subtract a (scalar_mul (subtract b a) α)))
      = Particle.mk m0 q0 (scalar_mul (subtract b a) (-γ)) (subtract a (scalar_mul (subtract b a) (α + γ))) := by
    simp only [simulate_motion_step]
    rw [Particle.mk.injEq]
    refine ⟨rfl, rfl, rfl, ?_⟩
    refine Prod.ext ?_ ?_ <;> (simp only [subtract, add, scalar_mul]; ring)
  have hd3 : subtract (subtract a (scalar_mul (subtract b a) (α + γ))) (add b (scalar_mul (subtract b a) β))
      = scalar_mul (subtract b a) (-(1 + α + γ + β)) := by
    refine Prod.ext ?_ ?_ <;> (simp only [subtract, add, scalar_mul]; ring)
  have e3 : simulate_force (Particle.mk m0 q0 (scalar_mul (subtract b a) (-γ)) (subtract a (scalar_mul (subtract b a) (α + γ)))) (Particle.mk m1 q1 (scalar_mul (subtract b a) (δ + q0 * q1 / (m1 * (1 + α + β) ^ 2 * magnitude (subtract b a) ^ 3))) (add b (scalar_mul (subtract b a) β)))
      = Particle.mk m0 q0 (scalar_mul (subtract b a) (-(γ + q0 * q1 / (m0 * (1 + α + γ + β) ^ 2 * magnitude (subtract b a) ^ 3)))) (subtract a (scalar_mul (subtract b a) (α + γ))) := by
    rw [simulate_force_along_neg _ _ (subtract b a) (-(1 + α + γ + β)) hD hσ2 (ne_of_gt hm0) hd3]
    simp only [kick]
    rw [Particle.mk.injEq]
    refine ⟨rfl, rfl, ?_, rfl⟩
    refine Prod.ext ?_ ?_ <;> (simp only [subtract, add, scalar_mul]; ring)
  have e4 : simulate_motion_step (Particle.mk m1 q1 (scalar_mul (subtract b a) (δ + q0 * q1 / (m1 * (1 + α + β) ^ 2 * magnitude (subtract b a) ^ 3))) (add b (scalar_mul (subtract b a) β)))
      = Particle.mk m1 q1 (scalar_mul (subtract b a) (δ + q0 * q1 / (m1 * (1 + α + β) ^ 2 * magnitude (subtract b a) ^ 3))) (add b (scalar_mul (subtract b a) (β + δ + q0 * q1 / (m1 * (1 + α + β) ^ 2 * magnitude (subtract b a) ^ 3)))) := by
    simp only [simulate_motion_step]
    rw [Particle.mk.injEq]
    refine ⟨rfl, rfl, rfl, ?_⟩
    refine Prod.ext ?_ ?_ <;> (simp only [subtract, add, scalar_mul]; ring)
  rw [particle_sim_pair, e1, e2, e3, e4]

theorem pairSep_shape_abs (m0 m1 q0 q1 : ℝ) (a b D : ℝ × ℝ) (α β γ δ : ℝ)
    (hDdef : D = subtract b a) :
    pairSep [Particle.mk m0 q0 (scalar_mul D (-γ)) (subtract a (scalar_mul D α)), Particle.mk m1 q1 (scalar_mul D δ) (add b (scalar_mul D β))]
      = |1 + α + β| * magnitude D := by
  subst hDdef
  show magnitude (subtract (add b (scalar_mul (subtract b a) β)) (subtract a (scalar_mul (subtract b a) α))) = _
  rw [show subtract (add b (scalar_mul (subtract b a) β)) (subtract a (scalar_mul (subtract b a) α)) = scalar_mul (subtract b a) (1 + α + β) from by
    refine Prod.ext ?_ ?_ <;> (simp only [subtract, add, scalar_mul]; ring)]
  rw [magnitude_smul]

/-- C6 (amended): for a two-particle system started from rest at distinct
positions, like-signed charges make the separation strictly increase at
every step; opposite-signed charges make it strictly decrease across the
first advance provided the attractive impulse does not overshoot
(|q0*q1| < 2 * m1 * r^3, r the initial separation). -/
theorem rest_two_body_separation (a b : ℝ × ℝ) (m0 m1 q0 q1 : ℝ)
    (hm0 : 0 < m0) (hm1 : 0 < m1) (hab : a ≠ b) :
    (0 < q0 * q1 → ∀ k : ℕ,
        pairSep ((particle_sim)^[k] [Particle.mk m0 q0 (0, 0) a, Particle.mk m1 q1 (0, 0) b])
          < pairSep ((particle_sim)^[k + 1] [Particle.mk m0 q0 (0, 0) a, Particle.mk m1 q1 (0, 0) b]))
    ∧ (q0 * q1 < 0 → |q0 * q1| < 2 * m1 * magnitude (subtract b a) ^ 3 →
        pairSep (particle_sim [Particle.mk m0 q0 (0, 0) a, Particle.mk m1 q1 (0, 0) b])
          < pairSep [Particle.mk m0 q0 (0, 0) a, Particle.mk m1 q1 (0, 0) b]) := by
  have hD : subtract b a ≠ (0, 0) := subtract_ne_zero (Ne.symm hab)
  have hr0 : 0 < magnitude (subtract b a) := magnitude_pos hD
  have h00 : scalar_mul (subtract b a) (0 : ℝ) = (0, 0) := by
    refine Prod.ext ?_ ?_ <;> simp [scalar_mul]
  have hneg0 : scalar_mul (subtract b a) (-(0 : ℝ)) = (0, 0) := by
    refine Prod.ext ?_ ?_ <;> simp [scalar_mul]
  have hsa : subtract a ((0 : ℝ), (0 : ℝ)) = a := by
    refine Prod.ext ?_ ?_ <;> simp [subtract]
  have hba : add b ((0 : ℝ), (0 : ℝ)) = b := by
    refine Prod.ext ?_ ?_ <;> simp [add]
  have hstate0 : [Particle.mk m0 q0 ((0 : ℝ), (0 : ℝ)) a, Particle.mk m1 q1 (0, 0) b]
      = [Particle.mk m0 q0 (scalar_mul (subtract b a) (-(0 : ℝ))) (subtract a (scalar_mul (subtract b a) (0 : ℝ))), Particle.mk m1 q1 (scalar_mul (subtract b a) (0 : ℝ)) (add b (scalar_mul (subtract b a) (0 : ℝ)))] := by
    rw [hneg0, h00, hsa, hba]
  constructor
  · intro hq
    have key : ∀ k : ℕ, ∃ α β γ δ : ℝ, 0 ≤ α ∧ 0 ≤ β ∧ 0 ≤ γ ∧ 0 ≤ δ ∧
        (particle_sim)^[k] [Particle.mk m0 q0 (0, 0) a, Particle.mk m1 q1 (0, 0) b]
          = [Particle.mk m0 q0 (scalar_mul (subtract b a) (-γ)) (subtract a (scalar_mul (subtract b a) α)), Particle.mk m1 q1 (scalar_mul (subtract b a) δ) (add b (scalar_mul (subtract b a) β))] := by
      intro k
      induction k with
      | zero =>
          exact ⟨0, 0, 0, 0, le_refl 0, le_refl 0, le_refl 0, le_refl 0, hstate0⟩
      | succ n ih =>
          obtain ⟨α, β, γ, δ, hα, hβ, hγ, hδ, hstate⟩ := ih
          have hε1 : 0 < q0 * q1 / (m1 * (1 + α + β) ^ 2 * magnitude (subtract b a) ^ 3) :=
            div_pos hq (mul_pos (mul_pos hm1 (pow_pos (by linarith) 2)) (pow_pos hr0 3))
          have hε0 : 0 < q0 * q1 / (m0 * (1 + α + γ + β) ^ 2 * magnitude (subtract b a) ^ 3) :=
            div_pos hq (mul_pos (mul_pos hm0 (pow_pos (by linarith) 2)) (pow_pos hr0 3))
          refine ⟨α + γ, β + δ + q0 * q1 / (m1 * (1 + α + β) ^ 2 * magnitude (subtract b a) ^ 3), γ + q0 * q1 / (m0 * (1 + α + γ + β) ^ 2 * magnitude (subtract b a) ^ 3), δ + q0 * q1 / (m1 * (1 + α + β) ^ 2 * magnitude (subtract b a) ^ 3), by linarith, by linarith, by linarith, by linarith, ?_⟩
          rw [Function.iterate_succ_apply', hstate,
            pair_step_shape m0 m1 q0 q1 a b (subtract b a) α β γ δ hm0 hm1 hD rfl hα hβ hγ hδ]
    intro k
    obtain ⟨α, β, γ, δ, hα, hβ, hγ, hδ, hstate⟩ := key k
    have hε1 : 0 < q0 * q1 / (m1 * (1 + α + β) ^ 2 * magnitude (subtract b a) ^ 3) :=
      div_pos hq (mul_pos (mul_pos hm1 (pow_pos (by linarith) 2)) (pow_pos hr0 3))
    rw [Function.iterate_succ_apply', hstate,
      pair_step_shape m0 m1 q0 q1 a b (subtract b a) α β γ δ hm0 hm1 hD rfl hα hβ hγ hδ,
      pairSep_shape_abs m0 m1 q0 q1 a b (subtract b a) α β γ δ rfl,
      pairSep_shape_abs m0 m1 q0 q1 a b (subtract b a) _ _ _ _ rfl]
    rw [abs_of_pos (show (0 : ℝ) < 1 + α + β by linarith),
      abs_of_pos (show (0 : ℝ) < 1 + (α + γ) + (β + δ + q0 * q1 / (m1 * (1 + α + β) ^ 2 * magnitude (subtract b a) ^ 3)) by linarith)]
    exact mul_lt_mul_of_pos_right (by linarith) hr0
  · intro hq hclamp
    have hden : 0 < m1 * (1 + (0 : ℝ) + 0) ^ 2 * magnitude (subtract b a) ^ 3 :=
      mul_pos (mul_pos hm1 (by norm_num)) (pow_pos hr0 3)
    have hK : q0 * q1 / (m1 * (1 + (0 : ℝ) + 0) ^ 2 * magnitude (subtract b a) ^ 3) < 0 :=
      div_neg_of_neg_of_pos hq hden
    have hK2 : |q0 * q1 / (m1 * (1 + (0 : ℝ) + 0) ^ 2 * magnitude (subtract b a) ^ 3)| < 2 := by
      rw [abs_div, abs_of_pos hden]
      rw [div_lt_iff₀ hden]
      nlinarith [hclamp]
    have hKlo := (abs_lt.mp hK2).1
    rw [show pairSep [Particle.mk m0 q0 ((0 : ℝ), (0 : ℝ)) a, Particle.mk m1 q1 (0, 0) b] = magnitude (subtract b a) from rfl]
    rw [hstate0,
      pair_step_shape m0 m1 q0 q1 a b (subtract b a) 0 0 0 0 hm0 hm1 hD rfl (le_refl 0) (le_refl 0) (le_refl 0) (le_refl 0),
      pairSep_shape_abs m0 m1 q0 q1 a b (subtract b a) _ _ _ _ rfl]
    have habs : |1 + ((0 : ℝ) + 0) + (0 + 0 + q0 * q1 / (m1 * (1 + (0 : ℝ) + 0) ^ 2 * magnitude (subtract b a) ^ 3))| < 1 := by
      rw [abs_lt]
      constructor <;> linarith
    calc |1 + ((0 : ℝ) + 0) + (0 + 0 + q0 * q1 / (m1 * (1 + (0 : ℝ) + 0) ^ 2 * magnitude (subtract b a) ^ 3))| * magnitude (subtract b a)
        < 1 * magnitude (subtract b a) := mul_lt_mul_of_pos_right habs hr0
      _ = magnitude (subtract b a) := one_mul _

/-- Witness for C6 (amended) at masses 1, charges (1, 1), rest positions
(0,0) and (1,0). -/
theorem rest_two_body_separation_witness :
    (0 : ℝ) < 1 ∧ (0 : ℝ) < 1 ∧ ((0 : ℝ), (0 : ℝ)) ≠ ((1 : ℝ), (0 : ℝ))
    ∧ (((0 : ℝ) < 1 * 1 → ∀ k : ℕ,
        pairSep ((particle_sim)^[k] [Particle.mk (1 : ℝ) 1 (0, 0) (0, 0), Particle.mk (1 : ℝ) 1 (0, 0) (1, 0)])
          < pairSep ((particle_sim)^[k + 1] [Particle.mk (1 : ℝ) 1 (0, 0) (0, 0), Particle.mk (1 : ℝ) 1 (0, 0) (1, 0)]))
      ∧ ((1 : ℝ) * 1 < 0 → |(1 : ℝ) * 1| < 2 * 1 * magnitude (subtract ((1 : ℝ), (0 : ℝ)) ((0 : ℝ), (0 : ℝ))) ^ 3 →
        pairSep (particle_sim [Particle.mk (1 : ℝ) 1 (0, 0) (0, 0), Particle.mk (1 : ℝ) 1 (0, 0) (1, 0)])
          < pairSep [Particle.mk (1 : ℝ) 1 (0, 0) (0, 0), Particle.mk (1 : ℝ) 1 (0, 0) (1, 0)])) :=
  ⟨by norm_num, by norm_num, by simp [Prod.ext_iff],
   rest_two_body_separation ((0 : ℝ), (0 : ℝ)) ((1 : ℝ), (0 : ℝ)) 1 1 1 1
     (by norm_num) (by norm_num) (by simp [Prod.ext_iff])⟩

end ChargeToy
